import Mathlib

/-!
Verification of the brand-integration-assistant core against its
natural-language specification.

The development shallowly embeds three pieces of the TypeScript source:

* the hashtag classifier `parseHashtags` (src/hooks/apiHooks.ts, with an
  equivalent copy in src/components/VideoUploader.tsx);
* the metadata-ingestion scheduler (`processVideoMetadataSingle`,
  `filterVideosNeedingMetadata`, `processVideoMetadata`, and the
  re-entrancy guard around them) together with the embedding-storage retry
  loop in `processCompletedVideo` (VideoUploader.tsx);
* the similarity matcher of the `videoToVideo` route
  (src/app/api/embeddingSearch/videoToVideo/route.ts).

JS strings are modelled as `List Char`, JS numbers used in score
comparisons as `ℚ`, fallible collaborator calls as `Except`, and the
guard/concurrency behaviour as explicit transition systems.
-/

namespace BrandIntegration

/-! ### Hashtag classifier (parseHashtags, apiHooks.ts lines 274-381) -/

/-- A hashtag token: the characters of one whitespace-delimited word. -/
abbrev Token := List Char

/-- Characters treated as separators by the JS regex split on whitespace. -/
def isWsChar (c : Char) : Bool :=
  c = ' ' || c = '\t' || c = '\n' || c = '\r' || c = '\x0b' || c = '\x0c'

/-- Embeds `hashtagText.replace(/\n/g, ' ')`. -/
def replaceNewlines (cs : List Char) : List Char :=
  cs.map (fun c => if c = '\n' then ' ' else c)

/-- Splits a character list at every whitespace character, keeping empty
segments (they are discarded by the `#` filter exactly as in the JS split
on a whitespace run). -/
def splitWsAux : List Char → List Char → List (List Char)
  | [], acc => [acc.reverse]
  | c :: rest, acc =>
    if isWsChar c then acc.reverse :: splitWsAux rest []
    else splitWsAux rest (c :: acc)

/-- Embeds `cleanText.split(/\s+/)` up to empty segments. -/
def splitWs (cs : List Char) : List (List Char) := splitWsAux cs []

/-- Embeds `tag.startsWith('#')`. -/
def startsWithHash : Token → Bool
  | '#' :: _ => true
  | _ => false

/-- Embeds the tokenizer: replace newlines, split on whitespace, keep the
words starting with `#`. -/
def hashtags (text : List Char) : List Token :=
  (splitWs (replaceNewlines text)).filter startsWithHash

/-- Embeds `tag.slice(1).toLowerCase()`. -/
def cleanTag (t : Token) : Token := (t.drop 1).map Char.toLower

/-- Embeds the `demographicsKeywords` array. -/
def demographicsKeywords : List Token :=
  ["male", "female", "18-25", "25-34", "35-44", "45-54", "55+"].map String.data

/-- Embeds the `sectorKeywords` array. -/
def sectorKeywords : List Token :=
  ["beauty", "fashion", "tech", "travel", "cpg", "food", "bev", "retail"].map String.data

/-- Embeds the `emotionKeywords` array. -/
def emotionKeywords : List Token :=
  ["happy", "positive", "happypositive", "happy/positive", "exciting", "relaxing",
   "inspiring", "serious", "festive", "calm", "determined"].map String.data

/-- Embeds the `locationKeywords` array. -/
def locationKeywords : List Token :=
  ["seoul", "dubai", "doha", "newyork", "new york", "paris", "tokyo", "london",
   "berlin", "lasvegas", "las vegas", "france", "korea", "qatar", "uae", "usa",
   "bocachica", "bocachicabeach", "marathon"].map String.data

/-- Embeds the `brandKeywords` array. -/
def brandKeywords : List Token :=
  ["fentybeauty", "adidas", "nike", "spacex", "apple", "microsoft", "google",
   "amazon", "ferrari", "heineken", "redbullracing", "redbull", "sailgp",
   "fifaworldcup", "fifa", "tourdefrance", "nttdata", "oracle"].map String.data

/-- The five mutable per-category tag arrays (`categoryTags`). -/
structure Buckets where
  demographics : List Token
  sector : List Token
  emotions : List Token
  locations : List Token
  brands : List Token
deriving Repr, DecidableEq

/-- The initial empty `categoryTags` object. -/
def emptyBuckets : Buckets := ⟨[], [], [], [], []⟩

/-- One iteration of the classification loop: test the cleaned tag against
the five keyword lists in priority order and push it into the first
matching bucket (the JS `continue` chain). -/
def classifyTag (b : Buckets) (tag : Token) : Buckets :=
  let c := cleanTag tag
  if demographicsKeywords.contains c then { b with demographics := b.demographics ++ [c] }
  else if sectorKeywords.contains c then { b with sector := b.sector ++ [c] }
  else if emotionKeywords.contains c then { b with emotions := b.emotions ++ [c] }
  else if locationKeywords.contains c then { b with locations := b.locations ++ [c] }
  else if brandKeywords.contains c then { b with brands := b.brands ++ [c] }
  else b

/-- The full classification loop over the extracted hashtags. -/
def loopBuckets (tags : List Token) : Buckets := tags.foldl classifyTag emptyBuckets

/-- Embeds the predicate of the `unclassifiedTags` filter. -/
def isUnclassified (tag : Token) : Bool :=
  let c := cleanTag tag
  !demographicsKeywords.contains c && !sectorKeywords.contains c &&
  !emotionKeywords.contains c && !locationKeywords.contains c &&
  !brandKeywords.contains c

/-- Embeds `unclassifiedTags`. -/
def unclassifiedTags (tags : List Token) : List Token := tags.filter isUnclassified

/-- Embeds the first fallback: when some tag is unclassified and
`locations` is empty, push the first unclassified tag into `locations`
and shift it off the unclassified list. -/
def fallbackLocations (b : Buckets) (un : List Token) : Buckets × List Token :=
  match un with
  | u :: rest =>
    if b.locations = [] then ({ b with locations := b.locations ++ [cleanTag u] }, rest)
    else (b, un)
  | [] => (b, un)

/-- Embeds the second fallback: when a tag is still unclassified and
`brands` is empty, push the next unclassified tag into `brands`. -/
def fallbackBrands (b : Buckets) (un : List Token) : Buckets :=
  match un with
  | u :: _ => if b.brands = [] then { b with brands := b.brands ++ [cleanTag u] } else b
  | [] => b

/-- The buckets after the classification loop and both fallbacks. -/
def finalBuckets (tags : List Token) : Buckets :=
  let p := fallbackLocations (loopBuckets tags) (unclassifiedTags tags)
  fallbackBrands p.1 p.2

/-- The fixed six-key output record of the classifier. -/
structure ClassifiedMetadata where
  source : String
  sector : String
  emotions : String
  brands : String
  locations : String
  demographics : String
deriving Repr, DecidableEq

/-- Embeds `join(', ')` (a singleton or empty bucket joins to itself). -/
def joinComma (l : List Token) : String := String.mk (List.intercalate (", ".data) l)

/-- Embeds `parseHashtags`: tokenize, classify, apply the fallbacks, and
join each bucket with a comma and space (`source` is never written). -/
def parseHashtags (text : List Char) : ClassifiedMetadata :=
  let b := finalBuckets (hashtags text)
  { source := ""
    sector := joinComma b.sector
    emotions := joinComma b.emotions
    brands := joinComma b.brands
    locations := joinComma b.locations
    demographics := joinComma b.demographics }

/-- The six output categories of the classifier. -/
inductive Category
  | source | sector | emotions | brands | locations | demographics
deriving DecidableEq, Repr

/-- The bucket (token list) backing each category of the output record for
a given input; `source` is never written by the classifier. -/
def bucketOf (text : List Char) : Category → List Token
  | .source => []
  | .sector => (finalBuckets (hashtags text)).sector
  | .emotions => (finalBuckets (hashtags text)).emotions
  | .brands => (finalBuckets (hashtags text)).brands
  | .locations => (finalBuckets (hashtags text)).locations
  | .demographics => (finalBuckets (hashtags text)).demographics

example : parseHashtags "".data =
    { source := "", sector := "", emotions := "", brands := "", locations := "", demographics := "" } := by
  decide

example : parseHashtags "#male #tech #exciting #newyork #adidas".data =
    { source := "", sector := "tech", emotions := "exciting", brands := "adidas",
      locations := "newyork", demographics := "male" } := by
  decide

example : parseHashtags "#unknowntag1 #unknowntag2".data =
    { source := "", sector := "", emotions := "", brands := "unknowntag2",
      locations := "unknowntag1", demographics := "" } := by
  decide

/-! ### Similarity matcher (videoToVideo/route.ts POST handler) -/

/-- One vector-store match as consumed by the route: `score` and
`metadata.tl_video_id` are optional, `resultType` is the annotation added
in the merge step. -/
structure QueryMatch where
  id : String
  score : Option ℚ
  tl_video_id : Option String
  resultType : Option String
deriving Repr, DecidableEq

/-- Embeds `m.score ?? 0`. -/
def score0 (m : QueryMatch) : ℚ := m.score.getD 0

/-- Embeds `current.metadata?.tl_video_id` followed by the `!tlVideoId`
falsiness test: a missing or empty id yields no key. -/
def keyOf (m : QueryMatch) : Option String :=
  match m.tl_video_id with
  | some k => if k = "" then none else some k
  | none => none

/-- Embeds `{...match, resultType: 'clip'}` from the merge step. -/
def withClipType (m : QueryMatch) : QueryMatch := { m with resultType := some "clip" }

/-- Embeds one step of the dedup `reduce`: writing `acc[tlVideoId]`
replaces the stored match in place (the JS object keeps the key's original
insertion position) exactly when the stored score, defaulted to 0, is
strictly below the new score defaulted to 0; a fresh key is appended. -/
def updateAcc : List (String × QueryMatch) → String → QueryMatch → List (String × QueryMatch)
  | [], k, m => [(k, m)]
  | (k', m') :: rest, k, m =>
    if k' = k then (if score0 m' < score0 m then (k, m) else (k', m')) :: rest
    else (k', m') :: updateAcc rest k m

/-- One `reduce` callback application: drop the match when its
`tl_video_id` is falsy, otherwise update the accumulator object. -/
def dedupStep (acc : List (String × QueryMatch)) (m : QueryMatch) : List (String × QueryMatch) :=
  match keyOf m with
  | none => acc
  | some k => updateAcc acc k m

/-- The accumulator object built by the dedup `reduce` over the merged
match list, as an insertion-ordered association list. -/
def dedupFold (ms : List QueryMatch) : List (String × QueryMatch) :=
  ms.foldl dedupStep []

/-- Embeds `uniqueResults = Object.values(allResults.reduce(...))`. -/
def uniqueResults (ms : List QueryMatch) : List QueryMatch :=
  (dedupFold ms).map Prod.snd

/-- Descending insertion by `score ?? 0`, modelling the JS
`sort((a, b) => (b.score ?? 0) - (a.score ?? 0))` up to the order of
equal-score entries, on which no proved property depends. -/
def insertDesc (m : QueryMatch) : List QueryMatch → List QueryMatch
  | [] => [m]
  | x :: xs => if score0 x < score0 m then m :: x :: xs else x :: insertDesc m xs

/-- Embeds the stable sort by descending `score ?? 0`. -/
def sortDesc (l : List QueryMatch) : List QueryMatch := l.foldr insertDesc []

/-- Embeds `sortedResults`: dedup the merged list, then sort. -/
def sortedResults (ms : List QueryMatch) : List QueryMatch := sortDesc (uniqueResults ms)

/-- The response of the POST route: a JSON list on success, or the
500-status error object produced by the catch block. -/
inductive RouteResponse
  | ok (results : List QueryMatch)
  | err (status : Nat)
deriving Repr, DecidableEq

/-- Embeds the sequential fan-out loop: one similarity query per source
clip, in order, each `await` propagating a rejection. -/
def runFanout (query : QueryMatch → Except Unit (List QueryMatch)) :
    List QueryMatch → Except Unit (List (List QueryMatch))
  | [] => .ok []
  | c :: cs =>
    match query c with
    | .error e => .error e
    | .ok r =>
      match runFanout query cs with
      | .error e => .error e
      | .ok rest => .ok (r :: rest)

/-- Embeds the whole POST body given the already-resolved source-expansion
query and a fan-out query collaborator: any rejected `await` reaches the
catch block, which answers with status 500; otherwise the fan-out results
are merged (annotated with result kind clip), deduplicated and sorted. -/
def videoToVideoPOST (expansion : Except Unit (List QueryMatch))
    (query : QueryMatch → Except Unit (List QueryMatch)) : RouteResponse :=
  match expansion with
  | .error _ => .err 500
  | .ok clips =>
    match (if clips.isEmpty then .ok [] else runFanout query clips) with
    | .error _ => .err 500
    | .ok similarResults =>
      let allResults := similarResults.foldl (fun acc r => acc ++ r.map withClipType) []
      .ok (sortedResults allResults)

/-! Spec-side reference formulation of the dedup/rank step, written from
the specification's words so the source fold can be proved to refine it. -/

/-- First-occurrence deduplication of a key list, keeping merge order. -/
def firstDedupAux : List String → List String → List String
  | [], _ => []
  | k :: rest, seen =>
    if k ∈ seen then firstDedupAux rest seen
    else k :: firstDedupAux rest (k :: seen)

/-- The distinct group keys of a merged match list, ordered by the first
match (in merge order) carrying each key; matches lacking a key are
dropped. -/
def groupKeys (ms : List QueryMatch) : List String :=
  firstDedupAux (ms.filterMap keyOf) []

/-- The match with the maximum defaulted score in a group, ties resolved
to the first one encountered. -/
def groupBest (l : List QueryMatch) : Option QueryMatch :=
  l.foldl
    (fun best m =>
      match best with
      | none => some m
      | some b => if score0 b < score0 m then some m else some b)
    none

/-- Spec-side dedup: group the merged matches by their key, and keep per
group exactly the first maximal-score match. -/
def dedupSpec (ms : List QueryMatch) : List QueryMatch :=
  (groupKeys ms).filterMap (fun k => groupBest (ms.filter (fun m => keyOf m == some k)))

/-! ### Metadata-ingestion scheduler (src/unnamed/part_001) -/

/-- A video as the scheduler sees it: its id and its currently known user
metadata, a JS object modelled as an insertion-ordered association list,
or absent. -/
structure VideoData where
  _id : String
  user_metadata : Option (List (String × String))
deriving Repr, DecidableEq

/-- JS property access on the metadata object. -/
def lookupField (md : List (String × String)) (k : String) : Option String :=
  (md.find? (fun p => p.1 == k)).map Prod.snd

/-- JS truthiness of `video.user_metadata.<k>`: present and nonempty. -/
def fieldTruthy (md : List (String × String)) (k : String) : Bool :=
  match lookupField md k with
  | some v => v != ""
  | none => false

/-- Embeds the eligibility check on metadata shared by
`processVideoMetadataSingle` (lines 325-329), `filterVideosNeedingMetadata`
(lines 385-391) and the filter inside `processVideoMetadata`: the object
is missing, has no keys, or has none of the five fields truthy. -/
def metadataMissing (v : VideoData) : Bool :=
  match v.user_metadata with
  | none => true
  | some md =>
    md.length == 0 ||
    (!fieldTruthy md "source" && !fieldTruthy md "topic_category" &&
     !fieldTruthy md "emotions" && !fieldTruthy md "brands" &&
     !fieldTruthy md "locations")

/-- Embeds `filterVideosNeedingMetadata` (part_001 lines 381-393). -/
def filterVideosNeedingMetadata (videos : List VideoData)
    (processedIds inProcessingIds : List String) : List VideoData :=
  videos.filter (fun v =>
    !processedIds.contains v._id && !inProcessingIds.contains v._id && metadataMissing v)

/-- The two id sets owned by the scheduler: `processedVideoIds` and
`videosInProcessing`. -/
structure SchedState where
  processed : List String
  inFlight : List String
deriving Repr, DecidableEq

/-- The collaborator calls made by one scheduler item, recorded in order. -/
inductive SchedEffect
  | generateCall (id : String)
  | persistCall (id : String) (md : ClassifiedMetadata)
deriving Repr, DecidableEq

/-- Result of one `processVideoMetadataSingle` run: the collaborator calls
it made, the scheduler state it left, and its returned boolean. The
run never rejects: the surrounding try/catch absorbs every collaborator
failure, which is why the result type has no error case. -/
structure SingleOutcome where
  effects : List SchedEffect
  state : SchedState
  returned : Bool
deriving Repr, DecidableEq

/-- Embeds `prev.filter(id => id !== videoId)`. -/
def removeId (l : List String) (id : String) : List String :=
  l.filter (fun x => x != id)

/-- Embeds `processVideoMetadataSingle` (part_001 lines 312-378) against
resolved collaborator outcomes: `gen` is the awaited `generateMetadata`
call (which may reject) and `persist` the awaited `updateVideoMetadata`
call (which may reject, or resolve to a boolean that the code discards). -/
def processVideoMetadataSingle (v : VideoData) (st : SchedState)
    (gen : Except Unit String) (persist : Except Unit Bool) : SingleOutcome :=
  if st.processed.contains v._id || st.inFlight.contains v._id then
    ⟨[], st, false⟩
  else if metadataMissing v then
    let st1 : SchedState := ⟨st.processed, st.inFlight ++ [v._id]⟩
    match gen with
    | .error _ =>
      ⟨[.generateCall v._id], ⟨st1.processed, removeId st1.inFlight v._id⟩, false⟩
    | .ok text =>
      if text != "" then
        let md := parseHashtags text.data
        match persist with
        | .error _ =>
          ⟨[.generateCall v._id, .persistCall v._id md],
            ⟨st1.processed, removeId st1.inFlight v._id⟩, false⟩
        | .ok _ =>
          ⟨[.generateCall v._id, .persistCall v._id md],
            ⟨st1.processed ++ [v._id], removeId st1.inFlight v._id⟩, true⟩
      else
        ⟨[.generateCall v._id], ⟨st1.processed, removeId st1.inFlight v._id⟩, false⟩
  else
    ⟨[], ⟨st.processed ++ [v._id], st.inFlight⟩, false⟩

/-- Embeds `processBatch` (part_001 lines 438-447): `Promise.all` over the
members, each launched against the state the group started from and its
own collaborator outcomes. Because the single runner never rejects,
`Promise.all` never short-circuits and the result is exactly the map. -/
def processBatch (batch : List (VideoData × Except Unit String × Except Unit Bool))
    (st : SchedState) : List SingleOutcome :=
  batch.map (fun e => processVideoMetadataSingle e.1 st e.2.1 e.2.2)

/-- Embeds `CONCURRENCY_LIMIT` (part_001 line 57). -/
def CONCURRENCY_LIMIT : Nat := 10

/-- Embeds the slicing loop of `processVideoMetadata` (lines 450-453),
with explicit fuel so the definition is structural: consecutive slices of
size `K`. -/
def chunksAux (K : Nat) : Nat → List α → List (List α)
  | 0, _ => []
  | _, [] => []
  | fuel+1, l => l.take K :: chunksAux K fuel (l.drop K)

/-- The consecutive batches of size at most `K` cut from `l`. -/
def chunks (K : Nat) (l : List α) : List (List α) := chunksAux K l.length l

/-- A configuration of the batching loop: the groups not yet started and
the ids currently in `Processing` (launched, not yet settled). -/
structure SchedCfg where
  pending : List (List String)
  inFlightIds : List String
deriving Repr, DecidableEq

/-- The steps the batching loop allows: a whole group launches only once
the in-flight set is empty (the `await processBatch` group-join barrier),
and members settle one at a time. -/
inductive GroupStep : SchedCfg → SchedCfg → Prop
  | start (g : List String) (rest : List (List String)) :
      GroupStep ⟨g :: rest, []⟩ ⟨rest, g⟩
  | settle (gs : List (List String)) (l₁ l₂ : List String) (x : String) :
      GroupStep ⟨gs, l₁ ++ x :: l₂⟩ ⟨gs, l₁ ++ l₂⟩

/-- The loop's initial configuration for eligible ids `ids` and limit `K`. -/
def schedInit (K : Nat) (ids : List String) : SchedCfg := ⟨chunks K ids, []⟩

/-! ### Re-entrancy guard (part_001 lines 396-397, 459-464, 510, 864-870) -/

/-- The guard flags: `processingMetadata`, `skipMetadataProcessing`, and
whether the 2-second cooldown timeout armed in the `finally` block is
still pending. -/
structure GuardState where
  running : Bool
  skip : Bool
  timerPending : Bool
deriving Repr, DecidableEq

/-- The events acting on the guard flags. -/
inductive GuardEvent
  | refresh
  | scroll
  | passEnd
  | timerFire
deriving Repr, DecidableEq

/-- One event: a `refresh` (videosData update) starts a pass exactly when
neither flag blocks it, and the starting pass raises both flags; `scroll`
is the infinite-scroll effect, which clears `skipMetadataProcessing`
before fetching the next page; `passEnd` is the `finally` block, clearing
`processingMetadata` and arming the 2-second timeout; `timerFire` is that
timeout clearing `skipMetadataProcessing`. -/
def guardStep (s : GuardState) : GuardEvent → GuardState
  | .refresh => if !s.running && !s.skip then ⟨true, true, s.timerPending⟩ else s
  | .scroll => ⟨s.running, false, s.timerPending⟩
  | .passEnd => if s.running then ⟨false, s.skip, true⟩ else s
  | .timerFire => if s.timerPending then ⟨s.running, false, false⟩ else s

/-- Whether a `refresh` event arriving in state `s` starts a new pass. -/
def startsPass (s : GuardState) : Bool := !s.running && !s.skip

/-- Runs a sequence of events through the guard. -/
def guardRun (s : GuardState) (evts : List GuardEvent) : GuardState :=
  evts.foldl guardStep s

/-- The idle guard state: no pass running, no suppression, no timer. -/
def guardIdle : GuardState := ⟨false, false, false⟩

/-! ### Embedding-storage retry loop (VideoUploader.tsx lines 458-507) -/

/-- The structured result object returned by `getAndStoreEmbeddings`. -/
structure StoreResult where
  success : Bool
  message : Option String
deriving Repr, DecidableEq

/-- What one retry run did: how many attempts were made, the delays
slept between consecutive attempts in order, and the last structured
result observed (none when every attempt threw). -/
structure RetryOutcome where
  attempts : Nat
  delays : List Nat
  result : Option StoreResult
deriving Repr, DecidableEq

/-- Embeds the `3000` milliseconds base of `3000 * attempts`. -/
def BASE_DELAY : Nat := 3000

/-- Embeds `maxAttempts = 3`. -/
def MAX_ATTEMPTS : Nat := 3

/-- Embeds the `while (attempts < maxAttempts && !embeddingResult?.success)`
loop: `oracle n` is the resolved outcome of the n-th
`getAndStoreEmbeddings` call (`error` modelling a thrown exception, which
the loop's try/catch absorbs); a failed non-final attempt sleeps
`3000 * attempts` before the next one. -/
def retryAux (oracle : Nat → Except Unit StoreResult) :
    Nat → Nat → Option StoreResult → List Nat → RetryOutcome
  | 0, a, r, d => ⟨a, d.reverse, r⟩
  | fuel+1, a, r, d =>
    if (r.map StoreResult.success).getD false then ⟨a, d.reverse, r⟩
    else
      match oracle (a + 1) with
      | .ok x =>
        if x.success then ⟨a + 1, d.reverse, some x⟩
        else retryAux oracle fuel (a + 1) (some x)
          (if a + 1 < MAX_ATTEMPTS then BASE_DELAY * (a + 1) :: d else d)
      | .error _ =>
        retryAux oracle fuel (a + 1) r
          (if a + 1 < MAX_ATTEMPTS then BASE_DELAY * (a + 1) :: d else d)

/-- The whole retry loop of step 4 of `processCompletedVideo`. -/
def embeddingRetryLoop (oracle : Nat → Except Unit StoreResult) : RetryOutcome :=
  retryAux oracle MAX_ATTEMPTS 0 none []

/-- Embeds steps 2-4 of `processCompletedVideo`: when the generated
hashtag data is nonempty, the metadata is persisted first, and a failed
persist (`updateVideoMetadata` returns false) throws into the outer
catch, so no embedding attempt happens; otherwise the retry loop runs and
its outcome is the embedding phase. -/
def processCompletedVideo (genData : String) (persistOk : Bool)
    (oracle : Nat → Except Unit StoreResult) : Option RetryOutcome :=
  if genData != "" then
    if persistOk then some (embeddingRetryLoop oracle) else none
  else some (embeddingRetryLoop oracle)

/-! ### Helper lemmas -/

/-- Removing an id from a list not containing it is the identity. -/
lemma removeId_eq_self (l : List String) (id : String) (h : l.contains id = false) :
    removeId l id = l := by
  have hnm : id ∉ l := by simpa using h
  apply List.filter_eq_self.mpr
  intro x hx
  have : x ≠ id := by
    intro he
    subst he
    exact hnm hx
  simp [this]

/-- Appending an id and then removing it restores a list not containing it. -/
lemma removeId_append (l : List String) (id : String) (h : l.contains id = false) :
    removeId (l ++ [id]) id = l := by
  simp only [removeId, List.filter_append]
  rw [show (List.filter (fun x => x != id) [id]) = [] by simp]
  rw [List.append_nil]
  exact removeId_eq_self l id h

/-! ### Claims C4 and C6: scheduler eligibility and failure isolation -/

/-- Claim C4 (code bug): the classifier persists the topic field under
the key sector - `(parseHashtags "#tech").sector = "tech"` - but the
eligibility checks read the literal key topic_category, which this
pipeline never writes. A video whose only populated field is sector
therefore passes the metadata check, survives
`filterVideosNeedingMetadata`, and gets a `generateMetadata` call,
violating the skip invariant the code's own skip comments and the
sector-to-topic_category display mapping intend. -/
theorem claim4_sector_bypasses_skip :
    (parseHashtags "#tech".data).sector = "tech" ∧
    metadataMissing ⟨"v1", some [("sector", "tech")]⟩ = true ∧
    SchedEffect.generateCall "v1" ∈
      (processVideoMetadataSingle ⟨"v1", some [("sector", "tech")]⟩ ⟨[], []⟩
        (Except.ok "#tech") (Except.ok true)).effects ∧
    filterVideosNeedingMetadata [⟨"v1", some [("sector", "tech")]⟩] [] [] =
      [⟨"v1", some [("sector", "tech")]⟩] := by
  refine ⟨by decide, by decide, by decide, by decide⟩

/-- Counterexample to claim C6 as stated: when `persist` resolves to
`false` the code ignores the boolean, marks the id processed and reports
success - the id is not marked Failed. -/
theorem claim6_counterexample :
    (processVideoMetadataSingle ⟨"v1", none⟩ ⟨[], []⟩ (Except.ok "#a") (Except.ok false)).returned
        = true ∧
    (processVideoMetadataSingle ⟨"v1", none⟩ ⟨[], []⟩ (Except.ok "#a") (Except.ok false)).state.processed
        = ["v1"] := by
  constructor <;> decide

/-- Claim C6 amended: the failure modes the code actually isolates are a
throwing generation, an empty generated hashtag text, and a throwing
persist (a persist that resolves to `false` is treated as success). Each
such failure returns false, leaves the processed set unchanged, restores
the in-flight set, and sibling group members still map to their own
independent outcomes. -/
theorem claim6_failure_isolation (v : VideoData) (st : SchedState)
    (gen : Except Unit String) (persist : Except Unit Bool)
    (h1 : st.processed.contains v._id = false)
    (h2 : st.inFlight.contains v._id = false)
    (h3 : metadataMissing v = true)
    (hfail : gen = Except.error () ∨ gen = Except.ok "" ∨ persist = Except.error ()) :
    (processVideoMetadataSingle v st gen persist).returned = false ∧
    (processVideoMetadataSingle v st gen persist).state.processed = st.processed ∧
    (processVideoMetadataSingle v st gen persist).state.inFlight = st.inFlight ∧
    (∀ batch st₂ i, (processBatch batch st₂).get? i =
      (batch.get? i).map (fun e => processVideoMetadataSingle e.1 st₂ e.2.1 e.2.2)) := by
  have hrem : removeId (st.inFlight ++ [v._id]) v._id = st.inFlight := removeId_append _ _ h2
  have hbatch : ∀ (batch : List (VideoData × Except Unit String × Except Unit Bool)) st₂ i,
      (processBatch batch st₂).get? i =
        (batch.get? i).map (fun e => processVideoMetadataSingle e.1 st₂ e.2.1 e.2.2) := by
    intro batch st₂ i
    simp [processBatch]
  have hnotin : ¬(v._id ∈ st.processed ∨ v._id ∈ st.inFlight) := by
    have p1 : v._id ∉ st.processed := by simpa using h1
    have p2 : v._id ∉ st.inFlight := by simpa using h2
    rintro (h | h)
    · exact p1 h
    · exact p2 h
  have hmain : (processVideoMetadataSingle v st gen persist).returned = false ∧
      (processVideoMetadataSingle v st gen persist).state.processed = st.processed ∧
      (processVideoMetadataSingle v st gen persist).state.inFlight = st.inFlight := by
    rcases hfail with hg | hg | hp
    · subst hg
      simp [processVideoMetadataSingle, hnotin, h3, hrem]
    · subst hg
      simp [processVideoMetadataSingle, hnotin, h3, hrem]
    · subst hp
      cases gen with
      | error e => simp [processVideoMetadataSingle, hnotin, h3, hrem]
      | ok text =>
        by_cases ht : text = ""
        · subst ht
          simp [processVideoMetadataSingle, hnotin, h3, hrem]
        · simp [processVideoMetadataSingle, hnotin, h3, hrem, ht]
  exact ⟨hmain.1, hmain.2.1, hmain.2.2, hbatch⟩

/-- Witness for the amended C6 at a concrete failing generation. -/
theorem claim6_failure_isolation_witness :
    (processVideoMetadataSingle ⟨"v1", none⟩ ⟨[], []⟩ (Except.error ()) (Except.ok true)).returned
      = false ∧
    (processVideoMetadataSingle ⟨"v1", none⟩ ⟨[], []⟩ (Except.error ()) (Except.ok true)).state.processed
      = ([] : List String) ∧
    (processVideoMetadataSingle ⟨"v1", none⟩ ⟨[], []⟩ (Except.error ()) (Except.ok true)).state.inFlight
      = ([] : List String) ∧
    (∀ batch st₂ i, (processBatch batch st₂).get? i =
      (batch.get? i).map (fun e => processVideoMetadataSingle e.1 st₂ e.2.1 e.2.2)) :=
  claim6_failure_isolation ⟨"v1", none⟩ ⟨[], []⟩ (Except.error ()) (Except.ok true)
    rfl rfl rfl (Or.inl rfl)

/-! ### Claim C7: fan-out failures propagate -/

/-- A failing query in the fan-out list makes the sequential fan-out loop
fail as a whole. -/
lemma runFanout_error (query : QueryMatch → Except Unit (List QueryMatch))
    (clips : List QueryMatch) (hfail : ∃ c ∈ clips, query c = Except.error ()) :
    runFanout query clips = Except.error () := by
  induction clips with
  | nil => simp at hfail
  | cons c cs ih =>
    rcases hfail with ⟨c', hc', herr⟩
    rcases List.mem_cons.mp hc' with h | h
    · subst h
      simp [runFanout, herr]
    · cases hq : query c with
      | error e => cases e; simp [runFanout, hq]
      | ok r =>
        have := ih ⟨c', h, herr⟩
        simp [runFanout, hq, this]

/-- Claim C7: when source expansion returns at least one clip and any
fan-out query fails, the route answers with the 500 error response rather
than a partial or empty ok result. -/
theorem claim7_fanout_failure_propagates (clips : List QueryMatch)
    (query : QueryMatch → Except Unit (List QueryMatch))
    (hne : clips ≠ [])
    (hfail : ∃ c ∈ clips, query c = Except.error ()) :
    videoToVideoPOST (Except.ok clips) query = RouteResponse.err 500 := by
  cases clips with
  | nil => exact absurd rfl hne
  | cons c cs =>
    have herr := runFanout_error query (c :: cs) hfail
    simp [videoToVideoPOST, herr]

/-- Witness for C7 at a concrete one-clip expansion with a failing query. -/
theorem claim7_fanout_failure_propagates_witness :
    videoToVideoPOST (Except.ok [⟨"c1", none, none, none⟩])
      (fun _ => Except.error ()) = RouteResponse.err 500 :=
  claim7_fanout_failure_propagates [⟨"c1", none, none, none⟩] (fun _ => Except.error ())
    (by simp) ⟨⟨"c1", none, none, none⟩, by simp, rfl⟩

/-! ### Claim C8: embedding-storage retry policy -/

/-- The retry loop makes at most three attempts, sleeps `3000 * n` after
the n-th failed non-final attempt, and stops early only on a successful
structured result. -/
lemma embeddingRetryLoop_spec (oracle : Nat → Except Unit StoreResult) :
    (embeddingRetryLoop oracle).attempts ≤ 3 ∧
    (embeddingRetryLoop oracle).delays =
      (List.range ((embeddingRetryLoop oracle).attempts - 1)).map
        (fun i => BASE_DELAY * (i + 1)) ∧
    ((embeddingRetryLoop oracle).attempts < 3 →
      ∃ x, (embeddingRetryLoop oracle).result = some x ∧ x.success = true) := by
  unfold embeddingRetryLoop MAX_ATTEMPTS
  rcases h1 : oracle 1 with e1 | x1
  · rcases h2 : oracle 2 with e2 | x2
    · rcases h3 : oracle 3 with e3 | x3
      · simp [retryAux, h1, h2, h3, BASE_DELAY, MAX_ATTEMPTS, List.range_succ]
      · rcases hs3 : x3.success with _ | _ <;>
          simp [retryAux, h1, h2, h3, hs3, BASE_DELAY, MAX_ATTEMPTS, List.range_succ]
    · rcases hs2 : x2.success with _ | _
      · rcases h3 : oracle 3 with e3 | x3
        · simp [retryAux, h1, h2, h3, hs2, BASE_DELAY, MAX_ATTEMPTS, List.range_succ]
        · rcases hs3 : x3.success with _ | _ <;>
            simp [retryAux, h1, h2, h3, hs2, hs3, BASE_DELAY, MAX_ATTEMPTS, List.range_succ]
      · simp [retryAux, h1, h2, hs2, BASE_DELAY, MAX_ATTEMPTS, List.range_succ]
  · rcases hs1 : x1.success with _ | _
    · rcases h2 : oracle 2 with e2 | x2
      · rcases h3 : oracle 3 with e3 | x3
        · simp [retryAux, h1, h2, h3, hs1, BASE_DELAY, MAX_ATTEMPTS, List.range_succ]
        · rcases hs3 : x3.success with _ | _ <;>
            simp [retryAux, h1, h2, h3, hs1, hs3, BASE_DELAY, MAX_ATTEMPTS, List.range_succ]
      · rcases hs2 : x2.success with _ | _
        · rcases h3 : oracle 3 with e3 | x3
          · simp [retryAux, h1, h2, h3, hs1, hs2, BASE_DELAY, MAX_ATTEMPTS, List.range_succ]
          · rcases hs3 : x3.success with _ | _ <;>
              simp [retryAux, h1, h2, h3, hs1, hs2, hs3, BASE_DELAY, MAX_ATTEMPTS, List.range_succ]
        · simp [retryAux, h1, h2, hs1, hs2, BASE_DELAY, MAX_ATTEMPTS, List.range_succ]
    · simp [retryAux, h1, hs1]

/-- Claim C8: once the metadata persist has succeeded, the embedding
storage phase runs and performs at most 3 attempts, sleeping
`attempt_index * 3000` between consecutive attempts, and yields a
structured outcome (stopping before the third attempt only on success);
the loop itself absorbs thrown attempts, so nothing propagates to the
caller. -/
theorem claim8_retry_policy (genData : String) (persistOk : Bool)
    (oracle : Nat → Except Unit StoreResult)
    (hgen : genData ≠ "") (hper : persistOk = true) :
    ∃ o, processCompletedVideo genData persistOk oracle = some o ∧
      o.attempts ≤ 3 ∧
      o.delays = (List.range (o.attempts - 1)).map (fun i => BASE_DELAY * (i + 1)) ∧
      (o.attempts < 3 → ∃ x, o.result = some x ∧ x.success = true) := by
  refine ⟨embeddingRetryLoop oracle, ?_, embeddingRetryLoop_spec oracle⟩
  simp [processCompletedVideo, hgen, hper]

/-- Witness for C8: an always-throwing storage collaborator yields three
attempts with delays 3000 and 6000 and no structured success. -/
theorem claim8_retry_policy_witness :
    ∃ o, processCompletedVideo "#a" true (fun _ => Except.error ()) = some o ∧
      o.attempts ≤ 3 ∧
      o.delays = (List.range (o.attempts - 1)).map (fun i => BASE_DELAY * (i + 1)) ∧
      (o.attempts < 3 → ∃ x, o.result = some x ∧ x.success = true) :=
  claim8_retry_policy "#a" true (fun _ => Except.error ()) (by decide) rfl

/-! ### Claim C9: re-entrancy guard and cooldown -/

/-- Counterexample to claim C9 as stated: after a pass starts and ends,
the 2-second cooldown timeout is still pending, yet one infinite-scroll
event clears `skipMetadataProcessing`, so the next refresh starts a new
pass inside the cooldown window. -/
theorem claim9_counterexample :
    (guardRun guardIdle [GuardEvent.refresh, GuardEvent.passEnd, GuardEvent.scroll]).timerPending
        = true ∧
    startsPass (guardRun guardIdle [GuardEvent.refresh, GuardEvent.passEnd, GuardEvent.scroll])
        = true ∧
    (guardStep (guardRun guardIdle [GuardEvent.refresh, GuardEvent.passEnd, GuardEvent.scroll])
        GuardEvent.refresh).running = true := by
  decide

/-- Claim C9 amended: a refresh event is ignored while a pass is running
and while `skipMetadataProcessing` is set; the flag is raised when a pass
starts and survives any event sequence free of scroll and timer-fire
events, so within the 2-second cooldown only an infinite-scroll event
can let a refresh start a new pass. -/
theorem claim9_reentrancy_guard :
    (∀ s : GuardState, s.running = true → guardStep s GuardEvent.refresh = s) ∧
    (∀ s : GuardState, s.skip = true → guardStep s GuardEvent.refresh = s) ∧
    (∀ s : GuardState, s.running = true → (guardStep s GuardEvent.passEnd).skip = s.skip ∧
      (guardStep s GuardEvent.passEnd).timerPending = true) ∧
    (∀ (s : GuardState) (evts : List GuardEvent), s.skip = true →
      (∀ e ∈ evts, e ≠ GuardEvent.scroll ∧ e ≠ GuardEvent.timerFire) →
      (guardRun s evts).skip = true) := by
  refine ⟨?_, ?_, ?_, ?_⟩
  · intro s hs
    simp [guardStep, hs]
  · intro s hs
    simp [guardStep, hs]
  · intro s hs
    simp [guardStep, hs]
  · intro s evts
    induction evts generalizing s with
    | nil => intro hs _; simpa [guardRun] using hs
    | cons e rest ih =>
      intro hs hfree
      have hstep : (guardStep s e).skip = true := by
        cases e with
        | refresh => simp [guardStep, hs]
        | scroll => exact absurd rfl (hfree GuardEvent.scroll (by simp)).1
        | passEnd =>
          by_cases hr : s.running = true
          · simp [guardStep, hr, hs]
          · simp only [Bool.not_eq_true] at hr
            simp [guardStep, hr, hs]
        | timerFire => exact absurd rfl (hfree GuardEvent.timerFire (by simp)).2
      have hrest : ∀ e' ∈ rest, e' ≠ GuardEvent.scroll ∧ e' ≠ GuardEvent.timerFire :=
        fun e' he' => hfree e' (List.mem_cons_of_mem _ he')
      simpa [guardRun] using ih (guardStep s e) hstep hrest

/-- Witness for the amended C9 at concrete guard states. -/
theorem claim9_reentrancy_guard_witness :
    guardStep ⟨true, true, false⟩ GuardEvent.refresh = ⟨true, true, false⟩ ∧
    (guardRun ⟨false, true, true⟩ [GuardEvent.refresh, GuardEvent.passEnd]).skip = true :=
  ⟨claim9_reentrancy_guard.1 ⟨true, true, false⟩ rfl,
    claim9_reentrancy_guard.2.2.2 ⟨false, true, true⟩ [GuardEvent.refresh, GuardEvent.passEnd]
      rfl (by decide)⟩

/-! ### Claim C5: bounded concurrency of the batching loop -/

/-- With enough fuel, the cut slices concatenate back to the input. -/
lemma chunksAux_join {α : Type} (K : Nat) (hK : 0 < K) :
    ∀ (fuel : Nat) (l : List α), l.length ≤ fuel → (chunksAux K fuel l).flatten = l := by
  intro fuel
  induction fuel with
  | zero =>
    intro l hl
    have : l = [] := List.length_eq_zero.mp (Nat.le_zero.mp hl)
    subst this
    simp [chunksAux]
  | succ n ih =>
    intro l hl
    cases l with
    | nil => simp [chunksAux]
    | cons a t =>
      have hdrop : ((a :: t).drop K).length ≤ n := by
        rw [List.length_drop]
        have h1 : 1 ≤ K := hK
        have : (a :: t).length ≤ n + 1 := hl
        omega
      simp only [chunksAux, List.flatten]
      rw [ih _ hdrop]
      exact List.take_append_drop K (a :: t)

/-- Every slice the loop cuts has size at most `K`. -/
lemma chunksAux_length_le {α : Type} (K : Nat) :
    ∀ (fuel : Nat) (l : List α) (g : List α), g ∈ chunksAux K fuel l → g.length ≤ K := by
  intro fuel
  induction fuel with
  | zero => intro l g hg; simp [chunksAux] at hg
  | succ n ih =>
    intro l g hg
    cases l with
    | nil => simp [chunksAux] at hg
    | cons a t =>
      simp only [chunksAux, List.mem_cons] at hg
      rcases hg with hg | hg
      · subst hg
        simp
      · exact ih _ g hg

/-- The loop invariant: every pending group is small and the in-flight
set is small. -/
def BoundedCfg (K : Nat) (cfg : SchedCfg) : Prop :=
  (∀ g ∈ cfg.pending, g.length ≤ K) ∧ cfg.inFlightIds.length ≤ K

/-- Single steps preserve the bound. -/
lemma groupStep_bounded {K : Nat} {c c' : SchedCfg}
    (hstep : GroupStep c c') (hinv : BoundedCfg K c) : BoundedCfg K c' := by
  cases hstep with
  | start g rest =>
    refine ⟨fun g' hg' => hinv.1 g' (List.mem_cons_of_mem _ hg'), ?_⟩
    exact hinv.1 g (List.mem_cons_self _ _)
  | settle gs l₁ l₂ x =>
    refine ⟨hinv.1, ?_⟩
    have := hinv.2
    simp only [List.length_append, List.length_cons] at this ⊢
    omega

/-- Claim C5: the scheduler partitions the eligible ids into consecutive
groups of size at most `K` whose concatenation is the whole id list, and
along every execution of the group-join loop the set of ids in Processing
never exceeds `K`. -/
theorem claim5_bounded_concurrency (K : Nat) (ids : List String) (cfg : SchedCfg)
    (hK : 0 < K)
    (hreach : Relation.ReflTransGen GroupStep (schedInit K ids) cfg) :
    cfg.inFlightIds.length ≤ K ∧
    (chunks K ids).flatten = ids ∧
    (∀ g ∈ chunks K ids, g.length ≤ K) := by
  have hjoin : (chunks K ids).flatten = ids := chunksAux_join K hK ids.length ids le_rfl
  have hlen : ∀ g ∈ chunks K ids, g.length ≤ K := fun g hg => chunksAux_length_le K _ ids g hg
  have hinv : BoundedCfg K cfg := by
    induction hreach with
    | refl => exact ⟨fun g hg => hlen g hg, by simp [schedInit]⟩
    | tail _ hstep ih => exact groupStep_bounded hstep ih
  exact ⟨hinv.2, hjoin, hlen⟩

/-- Witness for C5 at limit 2 over three ids, at the initial
configuration. -/
theorem claim5_bounded_concurrency_witness :
    (schedInit 2 ["a", "b", "c"]).inFlightIds.length ≤ 2 ∧
    (chunks 2 ["a", "b", "c"]).flatten = ["a", "b", "c"] ∧
    (∀ g ∈ chunks 2 ["a", "b", "c"], g.length ≤ 2) :=
  claim5_bounded_concurrency 2 ["a", "b", "c"] (schedInit 2 ["a", "b", "c"])
    (by decide) Relation.ReflTransGen.refl

/-! ### Claims C1 and C10: dedup/rank refinement and absent scores -/

/-- Lookup in the insertion-ordered accumulator object. -/
def lookupAL (k : String) (al : List (String × QueryMatch)) : Option QueryMatch :=
  (al.find? (fun p => p.1 == k)).map Prod.snd

/-- How one `reduce` write changes the key set: an existing key keeps its
position, a fresh key is appended. -/
lemma updateAcc_keys (acc : List (String × QueryMatch)) (k : String) (m : QueryMatch) :
    (updateAcc acc k m).map Prod.fst =
      if k ∈ acc.map Prod.fst then acc.map Prod.fst
      else acc.map Prod.fst ++ [k] := by
  induction acc with
  | nil => simp [updateAcc]
  | cons p rest ih =>
    obtain ⟨k', m'⟩ := p
    by_cases hk : k' = k
    · subst hk
      by_cases hs : score0 m' < score0 m <;> simp [updateAcc, hs]
    · simp only [updateAcc, if_neg hk, List.map_cons]
      rw [ih]
      have hne : ¬ k = k' := fun he => hk he.symm
      by_cases hc : k ∈ rest.map Prod.fst
      · simp [List.mem_cons, hc, hne]
      · simp [List.mem_cons, hc, hne]

/-- A `reduce` write to key `k` updates the value found at `k`: the new
match replaces the stored one exactly when its defaulted score is
strictly greater. -/
lemma lookupAL_updateAcc_self (acc : List (String × QueryMatch)) (k : String) (m : QueryMatch) :
    lookupAL k (updateAcc acc k m) =
      some (match lookupAL k acc with
            | none => m
            | some b => if score0 b < score0 m then m else b) := by
  induction acc with
  | nil => simp [updateAcc, lookupAL]
  | cons p rest ih =>
    obtain ⟨k', m'⟩ := p
    by_cases hk : k' = k
    · subst hk
      by_cases hs : score0 m' < score0 m <;> simp [updateAcc, lookupAL, hs]
    · have hbeq : (k' == k) = false := by simp [hk]
      simp only [updateAcc, if_neg hk, lookupAL, List.find?_cons, hbeq] at ih ⊢
      simpa [lookupAL] using ih

/-- A `reduce` write to key `k` leaves every other key's value unchanged. -/
lemma lookupAL_updateAcc_ne (acc : List (String × QueryMatch)) (k k' : String) (m : QueryMatch)
    (h : k' ≠ k) :
    lookupAL k' (updateAcc acc k m) = lookupAL k' acc := by
  have hkk : (k == k') = false := by
    simp only [beq_eq_false_iff_ne, ne_eq]
    exact fun he => h he.symm
  induction acc with
  | nil => simp [updateAcc, lookupAL, hkk]
  | cons p rest ih =>
    obtain ⟨k₀, m₀⟩ := p
    by_cases hk : k₀ = k
    · subst hk
      by_cases hs : score0 m₀ < score0 m <;> simp [updateAcc, lookupAL, hs, hkk]
    · have hstep : updateAcc ((k₀, m₀) :: rest) k m = (k₀, m₀) :: updateAcc rest k m := by
        simp [updateAcc, hk]
      rw [hstep]
      by_cases hb : (k₀ == k') = true
      · simp [lookupAL, List.find?_cons_of_pos, hb]
      · have hb' : ¬ ((fun p : String × QueryMatch => p.1 == k') (k₀, m₀) = true) := by
          simpa using hb
        have e1 : List.find? (fun p : String × QueryMatch => p.1 == k')
            ((k₀, m₀) :: updateAcc rest k m) =
            List.find? (fun p => p.1 == k') (updateAcc rest k m) :=
          List.find?_cons_of_neg _ hb'
        have e2 : List.find? (fun p : String × QueryMatch => p.1 == k') ((k₀, m₀) :: rest) =
            List.find? (fun p => p.1 == k') rest :=
          List.find?_cons_of_neg _ hb'
        unfold lookupAL at ih ⊢
        rw [e1, e2]
        exact ih

/-- Membership in the first-occurrence dedup of a key list. -/
lemma mem_firstDedupAux (ks : List String) :
    ∀ (seen : List String) (k : String),
      k ∈ firstDedupAux ks seen ↔ (k ∈ ks ∧ k ∉ seen) := by
  induction ks with
  | nil => intro seen k; simp [firstDedupAux]
  | cons k₀ rest ih =>
    intro seen k
    by_cases hc : k₀ ∈ seen
    · simp only [firstDedupAux, if_pos hc, ih, List.mem_cons]
      constructor
      · rintro ⟨hm, hn⟩
        exact ⟨Or.inr hm, hn⟩
      · rintro ⟨hm | hm, hn⟩
        · subst hm; exact absurd hc hn
        · exact ⟨hm, hn⟩
    · simp only [firstDedupAux, if_neg hc, List.mem_cons, ih]
      constructor
      · rintro (he | ⟨hm, hn⟩)
        · subst he; exact ⟨Or.inl rfl, hc⟩
        · simp only [List.mem_cons, not_or] at hn
          exact ⟨Or.inr hm, hn.2⟩
      · rintro ⟨hm | hm, hn⟩
        · exact Or.inl hm
        · by_cases he : k = k₀
          · exact Or.inl he
          · refine Or.inr ⟨hm, ?_⟩
            simp only [List.mem_cons, not_or]
            exact ⟨he, hn⟩

/-- Appending one key to the input of the first-occurrence dedup appends
it to the output exactly when it is fresh. -/
lemma firstDedupAux_append_single (ks : List String) :
    ∀ (seen : List String) (k : String),
      firstDedupAux (ks ++ [k]) seen =
        firstDedupAux ks seen ++ (if k ∈ seen ∨ k ∈ ks then [] else [k]) := by
  induction ks with
  | nil =>
    intro seen k
    by_cases hc : k ∈ seen <;> simp [firstDedupAux, hc]
  | cons k₀ rest ih =>
    intro seen k
    by_cases hc : k₀ ∈ seen
    · rw [List.cons_append]
      simp only [firstDedupAux, if_pos hc]
      rw [ih seen k]
      congr 1
      by_cases he : k = k₀
      · subst he; simp [hc]
      · simp [List.mem_cons, he]
    · rw [List.cons_append]
      simp only [firstDedupAux, if_neg hc]
      rw [ih (k₀ :: seen) k, List.cons_append]
      congr 1
      by_cases he : k = k₀
      · subst he; simp
      · simp [List.mem_cons, he]

/-- The first-occurrence dedup has no duplicate keys. -/
lemma firstDedupAux_nodup (ks : List String) :
    ∀ seen : List String, (firstDedupAux ks seen).Nodup := by
  induction ks with
  | nil => intro seen; simp [firstDedupAux]
  | cons k₀ rest ih =>
    intro seen
    by_cases hc : k₀ ∈ seen
    · simpa [firstDedupAux, hc] using ih seen
    · simp only [firstDedupAux, if_neg hc]
      refine List.nodup_cons.mpr ⟨?_, ih (k₀ :: seen)⟩
      intro hmem
      exact ((mem_firstDedupAux rest (k₀ :: seen) k₀).mp hmem).2 (List.mem_cons_self _ _)

/-- The dedup fold over one more merged match is one `reduce` step. -/
lemma dedupFold_append_single (ms : List QueryMatch) (m : QueryMatch) :
    dedupFold (ms ++ [m]) = dedupStep (dedupFold ms) m := by
  simp [dedupFold, List.foldl_append]

/-- The keys of the accumulator object are exactly the first-occurrence
deduplicated keys of the merged list. -/
lemma dedupFold_keys (ms : List QueryMatch) :
    (dedupFold ms).map Prod.fst = groupKeys ms := by
  induction ms using List.reverseRecOn with
  | nil => simp [dedupFold, groupKeys, firstDedupAux]
  | append_singleton l m ih =>
    rw [dedupFold_append_single]
    cases hkey : keyOf m with
    | none =>
      have hstep : dedupStep (dedupFold l) m = dedupFold l := by simp [dedupStep, hkey]
      rw [hstep, ih]
      unfold groupKeys
      rw [List.filterMap_append]
      simp [hkey, firstDedupAux]
    | some k =>
      have hstep : dedupStep (dedupFold l) m = updateAcc (dedupFold l) k m := by
        simp [dedupStep, hkey]
      rw [hstep, updateAcc_keys, ih]
      unfold groupKeys
      rw [List.filterMap_append]
      have hfm : List.filterMap keyOf [m] = [k] := by simp [hkey]
      rw [hfm, firstDedupAux_append_single]
      by_cases hm : k ∈ l.filterMap keyOf
      · have h1 : k ∈ firstDedupAux (l.filterMap keyOf) [] :=
          (mem_firstDedupAux _ _ _).mpr ⟨hm, by simp⟩
        simp [groupKeys, h1, hm]
      · have h1 : k ∉ firstDedupAux (l.filterMap keyOf) [] :=
          fun hx => hm ((mem_firstDedupAux _ _ _).mp hx).1
        simp [groupKeys, h1, hm]

/-- One more group member updates the first-max the same way the fold
step does. -/
lemma groupBest_append_single (l : List QueryMatch) (m : QueryMatch) :
    groupBest (l ++ [m]) = some (match groupBest l with
      | none => m
      | some b => if score0 b < score0 m then m else b) := by
  unfold groupBest
  rw [List.foldl_append]
  generalize (List.foldl
    (fun best m => match best with
      | none => some m
      | some b => if score0 b < score0 m then some m else some b)
    none l) = g
  cases g with
  | none => rfl
  | some b =>
    simp only [List.foldl]
    by_cases h : score0 b < score0 m <;> simp [h]

/-- The accumulator's binding for each key is the first maximal-score
match of that key's group. -/
lemma dedupFold_lookup (ms : List QueryMatch) (k : String) :
    lookupAL k (dedupFold ms) =
      groupBest (ms.filter fun x => keyOf x == some k) := by
  induction ms using List.reverseRecOn with
  | nil => simp [dedupFold, lookupAL, groupBest]
  | append_singleton l m ih =>
    rw [dedupFold_append_single, List.filter_append]
    cases hkey : keyOf m with
    | none =>
      have hstep : dedupStep (dedupFold l) m = dedupFold l := by simp [dedupStep, hkey]
      have hf : List.filter (fun x => keyOf x == some k) [m] = [] := by simp [hkey]
      rw [hstep, hf, List.append_nil, ih]
    | some k0 =>
      have hstep : dedupStep (dedupFold l) m = updateAcc (dedupFold l) k0 m := by
        simp [dedupStep, hkey]
      rw [hstep]
      by_cases hk : k = k0
      · subst hk
        have hf : List.filter (fun x => keyOf x == some k) [m] = [m] := by simp [hkey]
        rw [hf, lookupAL_updateAcc_self, ih, groupBest_append_single]
      · have hne : ¬ k0 = k := fun he => hk he.symm
        have hf : List.filter (fun x => keyOf x == some k) [m] = [] := by
          simp [hkey, hne]
        rw [hf, List.append_nil, lookupAL_updateAcc_ne _ _ _ _ hk, ih]

/-- The accumulator object has pairwise distinct keys. -/
lemma dedupFold_keys_nodup (ms : List QueryMatch) :
    ((dedupFold ms).map Prod.fst).Nodup := by
  rw [dedupFold_keys]
  exact firstDedupAux_nodup _ _

/-- Recovering the values of a duplicate-free association list from its
keys by lookup. -/
lemma assoc_map_snd (al : List (String × QueryMatch))
    (h : (al.map Prod.fst).Nodup) :
    al.map Prod.snd = (al.map Prod.fst).filterMap (fun k => lookupAL k al) := by
  induction al with
  | nil => simp
  | cons p rest ih =>
    obtain ⟨k, v⟩ := p
    simp only [List.map_cons] at h ⊢
    have hk : k ∉ rest.map Prod.fst := (List.nodup_cons.mp h).1
    have hrest := (List.nodup_cons.mp h).2
    have hself : lookupAL k ((k, v) :: rest) = some v := by simp [lookupAL]
    rw [List.filterMap_cons, hself]
    congr 1
    rw [ih hrest]
    refine (List.filterMap_congr ?_).symm
    intro k' hk'
    have hne : (k == k') = false := by
      have hne' : k ≠ k' := fun he => hk (he ▸ hk')
      simp [hne']
    simp [lookupAL, hne]

/-- Claim C1 core refinement: the source's `Object.values(reduce(...))`
dedup equals the specification's group-by-key, keep-first-max dedup. -/
lemma dedup_refines (ms : List QueryMatch) : uniqueResults ms = dedupSpec ms := by
  rw [show uniqueResults ms = (dedupFold ms).map Prod.snd from rfl]
  rw [assoc_map_snd _ (dedupFold_keys_nodup ms), dedupFold_keys]
  unfold dedupSpec
  exact List.filterMap_congr (fun k _ => dedupFold_lookup ms k)

/-- Elements of an insertion are the inserted match or old elements. -/
lemma mem_insertDesc (m x : QueryMatch) (l : List QueryMatch) :
    x ∈ insertDesc m l ↔ x = m ∨ x ∈ l := by
  induction l with
  | nil => simp [insertDesc]
  | cons y ys ih =>
    by_cases h : score0 y < score0 m
    · simp [insertDesc, h]
    · simp only [insertDesc, if_neg h, List.mem_cons, ih]
      tauto

/-- Insertion keeps the list sorted by descending defaulted score. -/
lemma insertDesc_pairwise (m : QueryMatch) (l : List QueryMatch)
    (h : List.Pairwise (fun a b => score0 b ≤ score0 a) l) :
    List.Pairwise (fun a b => score0 b ≤ score0 a) (insertDesc m l) := by
  induction l with
  | nil => simp [insertDesc]
  | cons y ys ih =>
    rcases List.pairwise_cons.mp h with ⟨hy, hys⟩
    by_cases hlt : score0 y < score0 m
    · simp only [insertDesc, if_pos hlt]
      refine List.pairwise_cons.mpr ⟨?_, h⟩
      intro z hz
      rcases List.mem_cons.mp hz with hz | hz
      · subst hz; exact le_of_lt hlt
      · exact le_trans (hy z hz) (le_of_lt hlt)
    · simp only [insertDesc, if_neg hlt]
      refine List.pairwise_cons.mpr ⟨?_, ih hys⟩
      intro z hz
      rcases (mem_insertDesc m z ys).mp hz with hz | hz
      · subst hz; exact le_of_not_lt hlt
      · exact hy z hz

/-- The route's sort is sorted by descending defaulted score. -/
lemma sortDesc_pairwise (l : List QueryMatch) :
    List.Pairwise (fun a b => score0 b ≤ score0 a) (sortDesc l) := by
  induction l with
  | nil => simp [sortDesc]
  | cons x xs ih => exact insertDesc_pairwise x (sortDesc xs) ih

/-- The route's sort is a permutation at the level of membership. -/
lemma mem_sortDesc (x : QueryMatch) (l : List QueryMatch) :
    x ∈ sortDesc l ↔ x ∈ l := by
  induction l with
  | nil => simp [sortDesc]
  | cons y ys ih =>
    show x ∈ insertDesc y (sortDesc ys) ↔ _
    rw [mem_insertDesc, ih]
    simp [eq_comm]

/-- The first-max of a group is a member of the group. -/
lemma groupBest_go_mem (l : List QueryMatch) :
    ∀ (acc : Option QueryMatch) (b : QueryMatch),
      l.foldl
        (fun best m => match best with
          | none => some m
          | some b => if score0 b < score0 m then some m else some b)
        acc = some b → acc = some b ∨ b ∈ l := by
  induction l with
  | nil => intro acc b h; exact Or.inl h
  | cons m t ih =>
    intro acc b h
    simp only [List.foldl] at h
    rcases ih _ b h with hacc | hmem
    · cases acc with
      | none =>
        simp only at hacc
        exact Or.inr (List.mem_cons.mpr (Or.inl (Option.some.inj hacc).symm))
      | some a =>
        simp only at hacc
        by_cases hlt : score0 a < score0 m
        · rw [if_pos hlt] at hacc
          exact Or.inr (List.mem_cons.mpr (Or.inl (Option.some.inj hacc).symm))
        · rw [if_neg hlt] at hacc
          exact Or.inl hacc
    · exact Or.inr (List.mem_cons_of_mem _ hmem)

/-- The first-max dominates every member of its group. -/
lemma groupBest_go_max (l : List QueryMatch) :
    ∀ (acc : Option QueryMatch) (b : QueryMatch),
      l.foldl
        (fun best m => match best with
          | none => some m
          | some b => if score0 b < score0 m then some m else some b)
        acc = some b →
      (∀ x ∈ l, score0 x ≤ score0 b) ∧ (∀ a, acc = some a → score0 a ≤ score0 b) := by
  induction l with
  | nil =>
    intro acc b h
    refine ⟨by simp, fun a ha => ?_⟩
    rw [ha] at h
    rw [Option.some.inj h]
  | cons m t ih =>
    intro acc b h
    simp only [List.foldl] at h
    rcases ih _ b h with ⟨ht, hacc'⟩
    have hm : score0 m ≤ score0 b := by
      cases acc with
      | none => exact hacc' m rfl
      | some a =>
        by_cases hlt : score0 a < score0 m
        · exact hacc' m (by simp [hlt])
        · exact le_trans (le_of_not_lt hlt) (hacc' a (by simp [hlt]))
    refine ⟨?_, ?_⟩
    · intro x hx
      rcases List.mem_cons.mp hx with hx | hx
      · subst hx; exact hm
      · exact ht x hx
    · intro a ha
      subst ha
      by_cases hlt : score0 a < score0 m
      · exact le_trans (le_of_lt hlt) (hacc' m (by simp [hlt]))
      · exact hacc' a (by simp [hlt])

/-- Claim C1: the route's dedup/rank step groups merged matches by
`tl_video_id`, keeps per group exactly the first maximal-score match,
drops matches lacking an id, and the returned list is sorted by
descending score; in particular the three-match example of the dedup law
yields exactly A at 0.95 followed by B at 0.5. -/
theorem claim1_dedup_rank (ms : List QueryMatch) :
    uniqueResults ms = dedupSpec ms ∧
    List.Pairwise (fun a b => score0 b ≤ score0 a) (sortedResults ms) ∧
    sortedResults [⟨"m1", some 0.9, some "A", some "clip"⟩,
      ⟨"m2", some 0.95, some "A", some "clip"⟩,
      ⟨"m3", some 0.5, some "B", some "clip"⟩] =
    [⟨"m2", some 0.95, some "A", some "clip"⟩,
      ⟨"m3", some 0.5, some "B", some "clip"⟩] := by
  refine ⟨dedup_refines ms, sortDesc_pairwise _, ?_⟩
  norm_num [sortedResults, uniqueResults, dedupFold, dedupStep, keyOf, updateAcc,
    score0, sortDesc, insertDesc,
    (show ("A" : String) ≠ "" by decide), (show ("B" : String) ≠ "" by decide),
    (show ("B" : String) ≠ "A" by decide), (show ("A" : String) ≠ "B" by decide)]

/-- Claim C10: a returned match without a score was treated as score 0:
every member of its `tl_video_id` group has defaulted score at most 0 (so
it never displaced a positive-score match), and in the returned order no
positive-score match appears after it. -/
theorem claim10_absent_score (ms : List QueryMatch) (m : QueryMatch)
    (hm : m ∈ sortedResults ms) (hnone : m.score = none) :
    (∀ m' ∈ ms, keyOf m' = keyOf m → score0 m' ≤ 0) ∧
    (∀ l₁ l₂, sortedResults ms = l₁ ++ m :: l₂ → ∀ m' ∈ l₂, score0 m' ≤ 0) := by
  have h0 : score0 m = 0 := by simp [score0, hnone]
  have hmu : m ∈ uniqueResults ms := (mem_sortDesc m (uniqueResults ms)).mp hm
  rw [dedup_refines] at hmu
  rcases List.mem_filterMap.mp hmu with ⟨k, hk, hbest⟩
  have hmem : m ∈ ms.filter fun x => keyOf x == some k :=
    groupBest_go_mem _ none m hbest |>.resolve_left (by simp)
  have hkey : keyOf m = some k := by
    have := (List.mem_filter.mp hmem).2
    simpa using this
  constructor
  · intro m' hm' hk'
    have hmem' : m' ∈ ms.filter fun x => keyOf x == some k := by
      refine List.mem_filter.mpr ⟨hm', ?_⟩
      simp [hk', hkey]
    have := (groupBest_go_max _ none m hbest).1 m' hmem'
    calc score0 m' ≤ score0 m := this
      _ = 0 := h0
  · intro l₁ l₂ heq m' hm'
    have hp : List.Pairwise (fun a b => score0 b ≤ score0 a) (sortedResults ms) :=
      sortDesc_pairwise _
    rw [heq] at hp
    have h2 := (List.pairwise_append.mp hp).2.1
    have := (List.pairwise_cons.mp h2).1 m' hm'
    calc score0 m' ≤ score0 m := this
      _ = 0 := h0

/-- Witness for C10: in a two-match list the scoreless B match is
returned and its defaulted score is at most 0. -/
theorem claim10_absent_score_witness :
    score0 ⟨"b", none, some "B", none⟩ ≤ 0 :=
  (claim10_absent_score
      [⟨"a", some 1, some "A", none⟩, ⟨"b", none, some "B", none⟩]
      ⟨"b", none, some "B", none⟩
      (by
        norm_num [sortedResults, uniqueResults, dedupFold, dedupStep, keyOf, updateAcc,
          score0, sortDesc, insertDesc,
          (show ("A" : String) ≠ "" by decide), (show ("B" : String) ≠ "" by decide),
          (show ("B" : String) ≠ "A" by decide), (show ("A" : String) ≠ "B" by decide)])
      rfl).1
    ⟨"b", none, some "B", none⟩ (by simp) rfl

/-! ### Claims C2 and C3: classifier bucket disjointness and fallback -/

/-- An unclassified tag leaves the buckets unchanged. -/
lemma classifyTag_unclassified (b : Buckets) (u : Token) (h : isUnclassified u = true) :
    classifyTag b u = b := by
  simp only [isUnclassified, Bool.and_eq_true, Bool.not_eq_true'] at h
  obtain ⟨⟨⟨⟨h1, h2⟩, h3⟩, h4⟩, h5⟩ := h
  have h1' : cleanTag u ∉ demographicsKeywords := by simpa using h1
  have h2' : cleanTag u ∉ sectorKeywords := by simpa using h2
  have h3' : cleanTag u ∉ emotionKeywords := by simpa using h3
  have h4' : cleanTag u ∉ locationKeywords := by simpa using h4
  have h5' : cleanTag u ∉ brandKeywords := by simpa using h5
  simp [classifyTag, h1', h2', h3', h4', h5']

/-- Joining the empty bucket yields the empty string. -/
lemma joinComma_nil : joinComma [] = "" := rfl

/-- Joining a one-token bucket yields that token. -/
lemma joinComma_single (l : Token) : joinComma [l] = String.mk l := by
  simp [joinComma, List.intercalate, List.intersperse]

/-- When every tag is unclassified the classification loop is inert. -/
lemma loopBuckets_unclassified (tags : List Token)
    (h : ∀ u ∈ tags, isUnclassified u = true) : loopBuckets tags = emptyBuckets := by
  unfold loopBuckets
  suffices hgen : ∀ b : Buckets, tags.foldl classifyTag b = b from hgen emptyBuckets
  induction tags with
  | nil => intro b; rfl
  | cons u rest ih =>
    intro b
    have hu := h u (List.mem_cons_self _ _)
    rw [List.foldl_cons, classifyTag_unclassified b u hu]
    exact ih (fun u' hu' => h u' (List.mem_cons_of_mem _ hu')) b

/-- When every tag is unclassified the unclassified list is the input. -/
lemma unclassifiedTags_all (tags : List Token)
    (h : ∀ u ∈ tags, isUnclassified u = true) : unclassifiedTags tags = tags :=
  List.filter_eq_self.mpr h

/-- Claim C3: on an input whose hashtag tokens all miss the five keyword
sets, the four non-fallback categories stay empty, `locations` receives
the first token (cleaned) when one exists, and `brands` receives the next
one when it exists. -/
theorem claim3_fallback_assignment (text : List Char)
    (hall : ∀ u ∈ hashtags text, isUnclassified u = true) :
    (parseHashtags text).demographics = "" ∧
    (parseHashtags text).sector = "" ∧
    (parseHashtags text).emotions = "" ∧
    (parseHashtags text).source = "" ∧
    (parseHashtags text).locations = joinComma (((hashtags text).take 1).map cleanTag) ∧
    (parseHashtags text).brands =
      joinComma ((((hashtags text).drop 1).take 1).map cleanTag) := by
  have hl := loopBuckets_unclassified (hashtags text) hall
  have hu := unclassifiedTags_all (hashtags text) hall
  unfold parseHashtags finalBuckets
  rw [hl, hu]
  cases htags : hashtags text with
  | nil =>
    simp [fallbackLocations, fallbackBrands, emptyBuckets, joinComma_nil, joinComma_single]
  | cons t1 rest =>
    cases rest with
    | nil =>
      simp [fallbackLocations, fallbackBrands, emptyBuckets, joinComma_nil, joinComma_single]
    | cons t2 rest2 =>
      simp [fallbackLocations, fallbackBrands, emptyBuckets, joinComma_nil, joinComma_single]

/-- Witness for C3 at the spec's concrete two-unknown-tag input. -/
theorem claim3_fallback_assignment_witness :
    (∀ u ∈ hashtags "#unknowntag1 #unknowntag2".data, isUnclassified u = true) ∧
    ((parseHashtags "#unknowntag1 #unknowntag2".data).demographics = "" ∧
     (parseHashtags "#unknowntag1 #unknowntag2".data).sector = "" ∧
     (parseHashtags "#unknowntag1 #unknowntag2".data).emotions = "" ∧
     (parseHashtags "#unknowntag1 #unknowntag2".data).source = "" ∧
     (parseHashtags "#unknowntag1 #unknowntag2".data).locations =
       joinComma (((hashtags "#unknowntag1 #unknowntag2".data).take 1).map cleanTag) ∧
     (parseHashtags "#unknowntag1 #unknowntag2".data).brands =
       joinComma ((((hashtags "#unknowntag1 #unknowntag2".data).drop 1).take 1).map cleanTag)) :=
  ⟨by decide, claim3_fallback_assignment "#unknowntag1 #unknowntag2".data (by decide)⟩

/-- Counterexample to claim C2 as stated: on the input with a repeated
unknown tag, the token foo lands in both the locations bucket and the
brands bucket. -/
theorem claim2_counterexample :
    "foo".data ∈ bucketOf "#foo #foo".data Category.locations ∧
    "foo".data ∈ bucketOf "#foo #foo".data Category.brands ∧
    Category.locations ≠ Category.brands := by
  refine ⟨by decide, by decide, by decide⟩

/-- The effective predicate for landing in the demographics bucket. -/
def pDemo (c : Token) : Bool := demographicsKeywords.contains c

/-- The effective predicate for landing in the sector bucket. -/
def pSector (c : Token) : Bool :=
  !demographicsKeywords.contains c && sectorKeywords.contains c

/-- The effective predicate for landing in the emotions bucket. -/
def pEmotions (c : Token) : Bool :=
  !demographicsKeywords.contains c && !sectorKeywords.contains c &&
  emotionKeywords.contains c

/-- The effective predicate for landing in the locations bucket from the
keyword loop. -/
def pLocations (c : Token) : Bool :=
  !demographicsKeywords.contains c && !sectorKeywords.contains c &&
  !emotionKeywords.contains c && locationKeywords.contains c

/-- The effective predicate for landing in the brands bucket from the
keyword loop. -/
def pBrands (c : Token) : Bool :=
  !demographicsKeywords.contains c && !sectorKeywords.contains c &&
  !emotionKeywords.contains c && !locationKeywords.contains c &&
  brandKeywords.contains c

/-- The category a cleaned token is assigned by the priority chain of
keyword tests, if any. -/
def tokClass (c : Token) : Option Category :=
  if demographicsKeywords.contains c then some Category.demographics
  else if sectorKeywords.contains c then some Category.sector
  else if emotionKeywords.contains c then some Category.emotions
  else if locationKeywords.contains c then some Category.locations
  else if brandKeywords.contains c then some Category.brands
  else none

/-- The classification loop from any starting buckets appends exactly the
cleaned tokens selected by each bucket's effective predicate. -/
lemma foldl_classifyTag (tags : List Token) :
    ∀ b : Buckets, tags.foldl classifyTag b =
      ⟨b.demographics ++ (tags.map cleanTag).filter pDemo,
       b.sector ++ (tags.map cleanTag).filter pSector,
       b.emotions ++ (tags.map cleanTag).filter pEmotions,
       b.locations ++ (tags.map cleanTag).filter pLocations,
       b.brands ++ (tags.map cleanTag).filter pBrands⟩ := by
  induction tags with
  | nil => intro b; simp
  | cons u rest ih =>
    intro b
    rw [List.foldl_cons, ih (classifyTag b u)]
    by_cases h1 : cleanTag u ∈ demographicsKeywords
    · have hb1 : demographicsKeywords.contains (cleanTag u) = true := by simpa using h1
      simp [classifyTag, h1, pDemo, pSector, pEmotions, pLocations, pBrands,
        List.filter_cons, hb1]
    · have hb1 : demographicsKeywords.contains (cleanTag u) = false := by simpa using h1
      by_cases h2 : cleanTag u ∈ sectorKeywords
      · have hb2 : sectorKeywords.contains (cleanTag u) = true := by simpa using h2
        simp [classifyTag, h1, h2, pDemo, pSector, pEmotions, pLocations, pBrands,
          List.filter_cons, hb1, hb2]
      · have hb2 : sectorKeywords.contains (cleanTag u) = false := by simpa using h2
        by_cases h3 : cleanTag u ∈ emotionKeywords
        · have hb3 : emotionKeywords.contains (cleanTag u) = true := by simpa using h3
          simp [classifyTag, h1, h2, h3, pDemo, pSector, pEmotions, pLocations, pBrands,
            List.filter_cons, hb1, hb2, hb3]
        · have hb3 : emotionKeywords.contains (cleanTag u) = false := by simpa using h3
          by_cases h4 : cleanTag u ∈ locationKeywords
          · have hb4 : locationKeywords.contains (cleanTag u) = true := by simpa using h4
            simp [classifyTag, h1, h2, h3, h4, pDemo, pSector, pEmotions, pLocations,
              pBrands, List.filter_cons, hb1, hb2, hb3, hb4]
          · have hb4 : locationKeywords.contains (cleanTag u) = false := by simpa using h4
            by_cases h5 : cleanTag u ∈ brandKeywords
            · have hb5 : brandKeywords.contains (cleanTag u) = true := by simpa using h5
              simp [classifyTag, h1, h2, h3, h4, h5, pDemo, pSector, pEmotions,
                pLocations, pBrands, List.filter_cons, hb1, hb2, hb3, hb4, hb5]
            · have hb5 : brandKeywords.contains (cleanTag u) = false := by simpa using h5
              simp [classifyTag, h1, h2, h3, h4, h5, pDemo, pSector, pEmotions,
                pLocations, pBrands, List.filter_cons, hb1, hb2, hb3, hb4, hb5]

/-- The classification loop's buckets are filters of the cleaned tokens. -/
lemma loopBuckets_eq (tags : List Token) :
    loopBuckets tags =
      ⟨(tags.map cleanTag).filter pDemo,
       (tags.map cleanTag).filter pSector,
       (tags.map cleanTag).filter pEmotions,
       (tags.map cleanTag).filter pLocations,
       (tags.map cleanTag).filter pBrands⟩ := by
  unfold loopBuckets
  rw [foldl_classifyTag tags emptyBuckets]
  simp [emptyBuckets]

/-- The brands fallback does not touch the demographics bucket. -/
lemma fallbackBrands_demographics (b : Buckets) (un : List Token) :
    (fallbackBrands b un).demographics = b.demographics := by
  cases un with
  | nil => rfl
  | cons u r => by_cases h : b.brands = [] <;> simp [fallbackBrands, h]

/-- The brands fallback does not touch the sector bucket. -/
lemma fallbackBrands_sector (b : Buckets) (un : List Token) :
    (fallbackBrands b un).sector = b.sector := by
  cases un with
  | nil => rfl
  | cons u r => by_cases h : b.brands = [] <;> simp [fallbackBrands, h]

/-- The brands fallback does not touch the emotions bucket. -/
lemma fallbackBrands_emotions (b : Buckets) (un : List Token) :
    (fallbackBrands b un).emotions = b.emotions := by
  cases un with
  | nil => rfl
  | cons u r => by_cases h : b.brands = [] <;> simp [fallbackBrands, h]

/-- The brands fallback does not touch the locations bucket. -/
lemma fallbackBrands_locations (b : Buckets) (un : List Token) :
    (fallbackBrands b un).locations = b.locations := by
  cases un with
  | nil => rfl
  | cons u r => by_cases h : b.brands = [] <;> simp [fallbackBrands, h]

/-- The locations fallback does not touch the demographics bucket. -/
lemma fallbackLocations_demographics (b : Buckets) (un : List Token) :
    (fallbackLocations b un).1.demographics = b.demographics := by
  cases un with
  | nil => rfl
  | cons u r => by_cases h : b.locations = [] <;> simp [fallbackLocations, h]

/-- The locations fallback does not touch the sector bucket. -/
lemma fallbackLocations_sector (b : Buckets) (un : List Token) :
    (fallbackLocations b un).1.sector = b.sector := by
  cases un with
  | nil => rfl
  | cons u r => by_cases h : b.locations = [] <;> simp [fallbackLocations, h]

/-- The locations fallback does not touch the emotions bucket. -/
lemma fallbackLocations_emotions (b : Buckets) (un : List Token) :
    (fallbackLocations b un).1.emotions = b.emotions := by
  cases un with
  | nil => rfl
  | cons u r => by_cases h : b.locations = [] <;> simp [fallbackLocations, h]

/-- The final demographics bucket is the loop's. -/
lemma final_demographics_eq (tags : List Token) :
    (finalBuckets tags).demographics = (loopBuckets tags).demographics := by
  unfold finalBuckets
  rw [fallbackBrands_demographics, fallbackLocations_demographics]

/-- The final sector bucket is the loop's. -/
lemma final_sector_eq (tags : List Token) :
    (finalBuckets tags).sector = (loopBuckets tags).sector := by
  unfold finalBuckets
  rw [fallbackBrands_sector, fallbackLocations_sector]

/-- The final emotions bucket is the loop's. -/
lemma final_emotions_eq (tags : List Token) :
    (finalBuckets tags).emotions = (loopBuckets tags).emotions := by
  unfold finalBuckets
  rw [fallbackBrands_emotions, fallbackLocations_emotions]

/-- Holds of a token consumed into `locations` by the first fallback. -/
def locFallbackTok (tags : List Token) (t : Token) : Prop :=
  ∃ u rest, unclassifiedTags tags = u :: rest ∧
    (loopBuckets tags).locations = [] ∧ t = cleanTag u

/-- Holds of a token consumed into `brands` by the second fallback. -/
def brandFallbackTok (tags : List Token) (t : Token) : Prop :=
  (loopBuckets tags).brands = [] ∧
    ((∃ u0 u1 rest, unclassifiedTags tags = u0 :: u1 :: rest ∧
        (loopBuckets tags).locations = [] ∧ t = cleanTag u1) ∨
     (∃ u rest, unclassifiedTags tags = u :: rest ∧
        (loopBuckets tags).locations ≠ [] ∧ t = cleanTag u))

/-- The fallback reason a token may sit in a category's bucket without a
keyword match; only `locations` and `brands` have one. -/
def fallbackAssigned (tags : List Token) : Category → Token → Prop
  | Category.locations, t => locFallbackTok tags t
  | Category.brands, t => brandFallbackTok tags t
  | _, _ => False

/-- A member of the final locations bucket is a keyword-classified token
of the loop or the first-fallback token. -/
lemma mem_final_locations (tags : List Token) (t : Token)
    (h : t ∈ (finalBuckets tags).locations) :
    t ∈ (loopBuckets tags).locations ∨ locFallbackTok tags t := by
  unfold finalBuckets at h
  rw [fallbackBrands_locations] at h
  cases hun : unclassifiedTags tags with
  | nil =>
    rw [hun] at h
    left
    simpa [fallbackLocations] using h
  | cons u rest =>
    rw [hun] at h
    by_cases hloc : (loopBuckets tags).locations = []
    · simp [fallbackLocations, hloc] at h
      right
      exact ⟨u, rest, hun, hloc, h⟩
    · simp [fallbackLocations, hloc] at h
      left
      exact h

/-- A member of the final brands bucket is a keyword-classified token of
the loop or the second-fallback token. -/
lemma mem_final_brands (tags : List Token) (t : Token)
    (h : t ∈ (finalBuckets tags).brands) :
    t ∈ (loopBuckets tags).brands ∨ brandFallbackTok tags t := by
  unfold finalBuckets at h
  cases hun : unclassifiedTags tags with
  | nil =>
    rw [hun] at h
    left
    simpa [fallbackLocations, fallbackBrands] using h
  | cons u rest =>
    rw [hun] at h
    by_cases hloc : (loopBuckets tags).locations = []
    · cases rest with
      | nil =>
        left
        simpa [fallbackLocations, fallbackBrands, hloc] using h
      | cons u1 r2 =>
        by_cases hbr : (loopBuckets tags).brands = []
        · simp [fallbackLocations, fallbackBrands, hloc, hbr] at h
          right
          exact ⟨hbr, Or.inl ⟨u, u1, r2, hun, hloc, h⟩⟩
        · left
          simpa [fallbackLocations, fallbackBrands, hloc, hbr] using h
    · by_cases hbr : (loopBuckets tags).brands = []
      · simp [fallbackLocations, fallbackBrands, hloc, hbr] at h
        right
        exact ⟨hbr, Or.inr ⟨u, rest, hun, hloc, h⟩⟩
      · left
        simpa [fallbackLocations, fallbackBrands, hloc, hbr] using h

/-- A demographics-predicate token is classified demographics. -/
lemma pDemo_tokClass (t : Token) (h : pDemo t = true) :
    tokClass t = some Category.demographics := by
  have hm : t ∈ demographicsKeywords := by simpa [pDemo] using h
  simp [tokClass, hm]

/-- A sector-predicate token is classified sector. -/
lemma pSector_tokClass (t : Token) (h : pSector t = true) :
    tokClass t = some Category.sector := by
  simp only [pSector, Bool.and_eq_true, Bool.not_eq_true'] at h
  have h1 : t ∉ demographicsKeywords := by simpa using h.1
  have h2 : t ∈ sectorKeywords := by simpa using h.2
  simp [tokClass, h1, h2]

/-- An emotions-predicate token is classified emotions. -/
lemma pEmotions_tokClass (t : Token) (h : pEmotions t = true) :
    tokClass t = some Category.emotions := by
  simp only [pEmotions, Bool.and_eq_true, Bool.not_eq_true'] at h
  have h1 : t ∉ demographicsKeywords := by simpa using h.1.1
  have h2 : t ∉ sectorKeywords := by simpa using h.1.2
  have h3 : t ∈ emotionKeywords := by simpa using h.2
  simp [tokClass, h1, h2, h3]

/-- A locations-predicate token is classified locations. -/
lemma pLocations_tokClass (t : Token) (h : pLocations t = true) :
    tokClass t = some Category.locations := by
  simp only [pLocations, Bool.and_eq_true, Bool.not_eq_true'] at h
  have h1 : t ∉ demographicsKeywords := by simpa using h.1.1.1
  have h2 : t ∉ sectorKeywords := by simpa using h.1.1.2
  have h3 : t ∉ emotionKeywords := by simpa using h.1.2
  have h4 : t ∈ locationKeywords := by simpa using h.2
  simp [tokClass, h1, h2, h3, h4]

/-- A brands-predicate token is classified brands. -/
lemma pBrands_tokClass (t : Token) (h : pBrands t = true) :
    tokClass t = some Category.brands := by
  simp only [pBrands, Bool.and_eq_true, Bool.not_eq_true'] at h
  have h1 : t ∉ demographicsKeywords := by simpa using h.1.1.1.1
  have h2 : t ∉ sectorKeywords := by simpa using h.1.1.1.2
  have h3 : t ∉ emotionKeywords := by simpa using h.1.1.2
  have h4 : t ∉ locationKeywords := by simpa using h.1.2
  have h5 : t ∈ brandKeywords := by simpa using h.2
  simp [tokClass, h1, h2, h3, h4, h5]

/-- An unclassified raw tag's cleaned token matches no keyword set. -/
lemma unclassified_tokClass (tags : List Token) (u : Token)
    (h : u ∈ unclassifiedTags tags) : tokClass (cleanTag u) = none := by
  have hi : isUnclassified u = true := (List.mem_filter.mp h).2
  simp only [isUnclassified, Bool.and_eq_true, Bool.not_eq_true'] at hi
  obtain ⟨⟨⟨⟨h1, h2⟩, h3⟩, h4⟩, h5⟩ := hi
  have h1' : cleanTag u ∉ demographicsKeywords := by simpa using h1
  have h2' : cleanTag u ∉ sectorKeywords := by simpa using h2
  have h3' : cleanTag u ∉ emotionKeywords := by simpa using h3
  have h4' : cleanTag u ∉ locationKeywords := by simpa using h4
  have h5' : cleanTag u ∉ brandKeywords := by simpa using h5
  simp [tokClass, h1', h2', h3', h4', h5']

/-- The final buckets indexed by category over a token list. -/
def bucketOfTags (tags : List Token) : Category → List Token
  | Category.source => []
  | Category.sector => (finalBuckets tags).sector
  | Category.emotions => (finalBuckets tags).emotions
  | Category.brands => (finalBuckets tags).brands
  | Category.locations => (finalBuckets tags).locations
  | Category.demographics => (finalBuckets tags).demographics

/-- The text-level buckets are the token-level buckets of its hashtags. -/
lemma bucketOf_eq_tags (text : List Char) (c : Category) :
    bucketOf text c = bucketOfTags (hashtags text) c := by
  cases c <;> rfl

/-- Every token of a final bucket either is keyword-classified into
exactly that category, or matches no keyword set and was placed by that
category's fallback. -/
lemma bucket_tokClass (tags : List Token) (t : Token) (c : Category)
    (h : t ∈ bucketOfTags tags c) :
    tokClass t = some c ∨ (tokClass t = none ∧ fallbackAssigned tags c t) := by
  cases c with
  | source => exact absurd h (List.not_mem_nil t)
  | demographics =>
    left
    rw [show bucketOfTags tags Category.demographics = (finalBuckets tags).demographics
      from rfl, final_demographics_eq, loopBuckets_eq] at h
    exact pDemo_tokClass t (List.mem_filter.mp h).2
  | sector =>
    left
    rw [show bucketOfTags tags Category.sector = (finalBuckets tags).sector from rfl,
      final_sector_eq, loopBuckets_eq] at h
    exact pSector_tokClass t (List.mem_filter.mp h).2
  | emotions =>
    left
    rw [show bucketOfTags tags Category.emotions = (finalBuckets tags).emotions from rfl,
      final_emotions_eq, loopBuckets_eq] at h
    exact pEmotions_tokClass t (List.mem_filter.mp h).2
  | locations =>
    rcases mem_final_locations tags t h with hk | hf
    · left
      rw [loopBuckets_eq] at hk
      exact pLocations_tokClass t (List.mem_filter.mp hk).2
    · right
      obtain ⟨u, rest, hun, hloc, ht⟩ := hf
      have hu : u ∈ unclassifiedTags tags := by
        rw [hun]; exact List.mem_cons_self _ _
      exact ⟨ht ▸ unclassified_tokClass tags u hu, ⟨u, rest, hun, hloc, ht⟩⟩
  | brands =>
    rcases mem_final_brands tags t h with hk | hf
    · left
      rw [loopBuckets_eq] at hk
      exact pBrands_tokClass t (List.mem_filter.mp hk).2
    · right
      obtain ⟨hbr, hcase⟩ := hf
      rcases hcase with ⟨u0, u1, rest, hun, hloc, ht⟩ | ⟨u, rest, hun, hloc, ht⟩
      · have hu : u1 ∈ unclassifiedTags tags := by
          rw [hun]; exact List.mem_cons_of_mem _ (List.mem_cons_self _ _)
        exact ⟨ht ▸ unclassified_tokClass tags u1 hu,
          ⟨hbr, Or.inl ⟨u0, u1, rest, hun, hloc, ht⟩⟩⟩
      · have hu : u ∈ unclassifiedTags tags := by
          rw [hun]; exact List.mem_cons_self _ _
        exact ⟨ht ▸ unclassified_tokClass tags u hu,
          ⟨hbr, Or.inr ⟨u, rest, hun, hloc, ht⟩⟩⟩

/-- With pairwise distinct cleaned tokens, the locations fallback and the
brands fallback consume different tokens. -/
lemma fallback_distinct (tags : List Token) (t : Token)
    (hnd : (tags.map cleanTag).Nodup)
    (h1 : locFallbackTok tags t) (h2 : brandFallbackTok tags t) : False := by
  obtain ⟨u, rest, hun, hloc, ht⟩ := h1
  obtain ⟨hbr, hcase⟩ := h2
  rcases hcase with ⟨u0, u1, rest2, hun2, hloc2, ht2⟩ | ⟨u2, rest2, hun2, hloc2, ht2⟩
  · have heq : u :: rest = u0 :: u1 :: rest2 := hun ▸ hun2
    obtain ⟨he1, he2⟩ := List.cons.inj heq
    subst he1
    subst he2
    have hsub : List.Sublist (unclassifiedTags tags) tags := List.filter_sublist tags
    have hnodup : ((unclassifiedTags tags).map cleanTag).Nodup :=
      hnd.sublist (hsub.map cleanTag)
    rw [hun] at hnodup
    simp only [List.map_cons, List.nodup_cons, List.mem_cons, List.mem_map] at hnodup
    have hne : cleanTag u ≠ cleanTag u1 := fun he => hnodup.1 (Or.inl he)
    exact hne (ht.symm.trans ht2)
  · exact hloc2 hloc

/-- Claim C2 amended: on an input whose normalized hashtag tokens are
pairwise distinct, no token appears in the bucket of two different output
categories (the repeated-token counterexample is the only obstruction). -/
theorem claim2_bucket_disjoint (text : List Char)
    (hnd : ((hashtags text).map cleanTag).Nodup)
    (t : Token) (c₁ c₂ : Category)
    (h₁ : t ∈ bucketOf text c₁) (h₂ : t ∈ bucketOf text c₂) : c₁ = c₂ := by
  rw [bucketOf_eq_tags] at h₁ h₂
  rcases bucket_tokClass _ t c₁ h₁ with k₁ | ⟨n₁, f₁⟩ <;>
    rcases bucket_tokClass _ t c₂ h₂ with k₂ | ⟨n₂, f₂⟩
  · exact Option.some.inj (k₁.symm.trans k₂)
  · rw [k₁] at n₂
    exact Option.noConfusion n₂
  · rw [k₂] at n₁
    exact Option.noConfusion n₁
  · cases c₁ with
    | source => exact f₁.elim
    | sector => exact f₁.elim
    | emotions => exact f₁.elim
    | demographics => exact f₁.elim
    | locations =>
      cases c₂ with
      | locations => rfl
      | brands => exact (fallback_distinct _ t hnd f₁ f₂).elim
      | source => exact f₂.elim
      | sector => exact f₂.elim
      | emotions => exact f₂.elim
      | demographics => exact f₂.elim
    | brands =>
      cases c₂ with
      | brands => rfl
      | locations => exact (fallback_distinct _ t hnd f₂ f₁).elim
      | source => exact f₂.elim
      | sector => exact f₂.elim
      | emotions => exact f₂.elim
      | demographics => exact f₂.elim

/-- Witness for the amended C2 at a concrete distinct-token input. -/
theorem claim2_bucket_disjoint_witness :
    Category.locations = Category.locations :=
  claim2_bucket_disjoint "#newyork #foo".data (by decide) "newyork".data
    Category.locations Category.locations (by decide) (by decide)

end BrandIntegration